import Mathlib

/-!
Shallow embedding of the Gitty puzzle-game core:
the git-like graph engine in src/lib/gitEngine.ts and the
command/undo state manager in src/hooks/useGame.ts.

JavaScript Map objects (insertion-ordered, distinct keys) are embedded as
association lists; Map.set replaces the first matching key in place or
appends at the end, matching JS insertion-order semantics.  The random
commit-hash generator (generateCommitHash in src/lib/utils.ts) and
Date.now() are modelled as explicit parameters (an id source and a clock),
since their values are data the engine merely threads through.
-/

namespace Gitty

/-- Commit record, from the Commit interface in src/lib/types.ts. -/
structure Commit where
  id : String
  message : String
  parentIds : List String
  branch : String
  depth : Nat
  timestamp : Nat
deriving Repr, DecidableEq

/-- Branch pointer, from the Branch interface in src/lib/types.ts. -/
structure Branch where
  name : String
  tipCommitId : String
  color : String
deriving Repr, DecidableEq

/-- Collectible file target, from the FileTarget interface in src/lib/types.ts. -/
structure FileTarget where
  id : String
  name : String
  branch : String
  depth : Nat
  collected : Bool
deriving Repr, DecidableEq

/-- Association list standing for a JavaScript Map with String keys. -/
abbrev SMap (α : Type) := List (String × α)

namespace SMap

/-- Map.get: first binding of the key, if any. -/
def get? {α : Type} : SMap α → String → Option α
  | [], _ => none
  | (k', v) :: rest, k => if k' = k then some v else get? rest k

/-- Map.has. -/
def has {α : Type} : SMap α → String → Bool
  | [], _ => false
  | (k', _) :: rest, k => k' = k || has rest k

/-- Map.set: replace the first binding of the key in place, else append. -/
def set {α : Type} : SMap α → String → α → SMap α
  | [], k, v => [(k, v)]
  | (k', v') :: rest, k, v =>
      if k' = k then (k, v) :: rest else (k', v') :: set rest k v

/-- Map.size (bindings are unique in any Map-produced list). -/
def size {α : Type} (m : SMap α) : Nat := m.length

/-- Array.from(map.keys()). -/
def keys {α : Type} (m : SMap α) : List String := m.map (·.1)

theorem get?_set_self {α : Type} (m : SMap α) (k : String) (v : α) :
    (m.set k v).get? k = some v := by
  induction m with
  | nil => simp [set, get?]
  | cons p rest ih =>
      by_cases h : p.1 = k
      · simp [set, h, get?]
      · simp [set, h, get?, ih]

theorem get?_set_ne {α : Type} (m : SMap α) (k k' : String) (v : α) (h : k' ≠ k) :
    (m.set k v).get? k' = m.get? k' := by
  induction m with
  | nil => simp [set, get?, Ne.symm h]
  | cons p rest ih =>
      by_cases hp : p.1 = k
      · simp [set, hp, get?, Ne.symm h]
      · by_cases hp' : p.1 = k'
        · simp [set, hp, get?, hp', h]
        · simp [set, hp, get?, hp', ih]

theorem set_of_not_has {α : Type} (m : SMap α) (k : String) (v : α)
    (h : m.has k = false) : m.set k v = m ++ [(k, v)] := by
  induction m with
  | nil => simp [set]
  | cons p rest ih =>
      simp [has] at h
      simp [set, h.1, ih h.2]

theorem size_set_of_not_has {α : Type} (m : SMap α) (k : String) (v : α)
    (h : m.has k = false) : (m.set k v).size = m.size + 1 := by
  simp [set_of_not_has m k v h, size]

theorem has_of_get?_eq_some {α : Type} (m : SMap α) (k : String) (v : α)
    (h : m.get? k = some v) : m.has k = true := by
  induction m with
  | nil => simp [get?] at h
  | cons p rest ih =>
      by_cases hp : p.1 = k
      · simp [has, hp]
      · simp [get? , hp] at h
        simp [has, hp, ih h]

theorem get?_eq_none_of_not_has {α : Type} (m : SMap α) (k : String)
    (h : m.has k = false) : m.get? k = none := by
  induction m with
  | nil => simp [get?]
  | cons p rest ih =>
      simp [has] at h
      simp [get?, h.1, ih h.2]

theorem get?_append_of_not_has {α : Type} (m m' : SMap α) (k : String)
    (h : m.has k = false) : (m ++ m').get? k = m'.get? k := by
  induction m with
  | nil => simp
  | cons p rest ih =>
      simp [has] at h
      simp [get?, h.1, ih h.2]

theorem has_append {α : Type} (m m' : SMap α) (k : String) :
    (m ++ m').has k = (m.has k || m'.has k) := by
  induction m with
  | nil => simp [has]
  | cons p rest ih => simp [has, ih, Bool.or_assoc]

theorem get?_append_of_has {α : Type} (m m' : SMap α) (k : String)
    (h : m.has k = true) : (m ++ m').get? k = m.get? k := by
  induction m with
  | nil => simp [has] at h
  | cons p rest ih =>
      by_cases hp : p.1 = k
      · simp [get?, hp]
      · simp [has, hp] at h
        simp [get?, hp, ih h]

end SMap

/-- Commit graph with branch pointers and HEAD, from the GitGraph interface. -/
structure GitGraph where
  commits : SMap Commit
  branches : SMap Branch
  headRef : String
  isDetached : Bool
deriving Repr, DecidableEq

/-- Command vocabulary, from the GameCommand type union. -/
inductive CommandType
  | commit
  | branch
  | checkout
  | merge
  | rebase
  | undo
deriving Repr, DecidableEq

/-- Parsed player command, from the GameCommand interface (result fields omitted). -/
structure GameCommand where
  type : CommandType
  args : List String
  timestamp : Nat
deriving Repr, DecidableEq

/-- Result value returned by every engine call, from the CommandResult interface.
Optional fields absent in JavaScript are Option none here. -/
structure CommandResult where
  success : Bool
  message : String
  newState : Option GitGraph := none
  filesCollected : Option (List FileTarget) := none
  gameWon : Option Bool := none
deriving Repr, DecidableEq

/-- Puzzle limits, from the PuzzleConstraints interface. -/
structure PuzzleConstraints where
  maxCommands : Nat
  maxCommits : Nat
  maxCheckouts : Nat
  maxBranches : Nat
  allowedCommands : List CommandType
deriving Repr, DecidableEq

/-- Branch colors from BRANCH_COLORS in src/lib/types.ts. -/
def BRANCH_COLORS_main : String := "#3b82f6"

def BRANCH_COLORS_develop : String := "#22c55e"

def BRANCH_COLORS_feature : String := "#f59e0b"

def BRANCH_COLORS_hotfix : String := "#ef4444"

def BRANCH_COLORS_release : String := "#8b5cf6"

def BRANCH_COLORS_default : String := "#6b7280"

/-- Color chooser getBranchColor from src/lib/utils.ts. -/
def getBranchColor (branchName : String) : String :=
  if branchName = "main" ∨ branchName = "master" then BRANCH_COLORS_main
  else if branchName.startsWith "feature" then BRANCH_COLORS_feature
  else if branchName.startsWith "hotfix" then BRANCH_COLORS_hotfix
  else if branchName.startsWith "release" then BRANCH_COLORS_release
  else if branchName = "develop" ∨ branchName = "dev" then BRANCH_COLORS_develop
  else BRANCH_COLORS_default

/-- JavaScript string-or idiom a || b: empty strings are falsy. -/
def strOr (a b : String) : String := if a = "" then b else a

/-- Engine state: the three private fields of the GitEngine class. -/
structure GitEngine where
  graph : GitGraph
  files : List FileTarget
  constraints : PuzzleConstraints
deriving Repr, DecidableEq

namespace GitEngine

/-- Query getCurrentCommit: resolve HEAD to a commit.  The source guards the
lookup with JavaScript truthiness on the resolved ref, so an empty-string ref
yields null. -/
def getCurrentCommit (e : GitEngine) : Option Commit :=
  let ref : Option String :=
    if e.graph.isDetached then some e.graph.headRef
    else (e.graph.branches.get? e.graph.headRef).map (·.tipCommitId)
  match ref with
  | some r => if r = "" then none else e.graph.commits.get? r
  | none => none

/-- Query getCurrentBranch: the branch HEAD is attached to, if any. -/
def getCurrentBranch (e : GitEngine) : Option Branch :=
  if e.graph.isDetached then none else e.graph.branches.get? e.graph.headRef

/-- One queue-processing loop of the isAncestor breadth-first search, with
explicit fuel.  Each processed element either terminates the search, is
skipped as visited, or enqueues the parents of a newly visited commit, so the
number of processed elements never exceeds one plus the total parent-edge
count; the fuel passed by isAncestor covers that bound. -/
def bfsAncestor (commits : SMap Commit) (target : String) :
    Nat → List String → List String → Bool
  | 0, _, _ => false
  | _ + 1, [], _ => false
  | fuel + 1, current :: queue, visited =>
      if current = target then true
      else if visited.contains current then bfsAncestor commits target fuel queue visited
      else
        let queue' :=
          match commits.get? current with
          | some c => queue ++ c.parentIds
          | none => queue
        bfsAncestor commits target fuel queue' (current :: visited)

/-- Fuel that bounds the breadth-first search of isAncestor. -/
def bfsFuel (commits : SMap Commit) : Nat :=
  commits.foldl (fun n p => n + p.2.parentIds.length) (commits.length + 2)

/-- Ancestry test isAncestor: breadth-first search from the given commit over
all parent edges, true when the candidate ancestor is reached (a commit counts
as its own ancestor). -/
def isAncestor (e : GitEngine) (potentialAncestorId commitId : String) : Bool :=
  bfsAncestor e.graph.commits potentialAncestorId
    (bfsFuel e.graph.commits) [commitId] []

/-- Walk of getCommitsBetween: follow first parents from a commit, collecting
commits oldest-first (the source unshifts), stopping at the target id, a
visited id, a missing commit, or a parentless commit.  Each iteration visits a
distinct commit of the map, so fuel one past the map size suffices. -/
def walkBetween (commits : SMap Commit) (toId : String) :
    Nat → Option Commit → List String → List Commit → List Commit
  | 0, _, _, acc => acc
  | _ + 1, none, _, acc => acc
  | fuel + 1, some c, visited, acc =>
      if visited.contains c.id then acc
      else if c.id = toId then acc
      else
        let acc' := c :: acc
        match c.parentIds with
        | [] => acc'
        | p :: _ => walkBetween commits toId fuel (commits.get? p) (c.id :: visited) acc'

/-- Helper getCommitsBetween used by rebase: the first-parent chain from
fromId back to, but not including, toId (or the whole chain when toId is never
met), in original (oldest-first) order. -/
def getCommitsBetween (e : GitEngine) (fromId toId : String) : List Commit :=
  walkBetween e.graph.commits toId (e.graph.commits.length + 1)
    (e.graph.commits.get? fromId) [] []

/-- Predicate for a file target being collectible at a position, from the loop
body of checkFileCollection. -/
def collectsAt (branch : String) (depth : Nat) (f : FileTarget) : Bool :=
  !f.collected && f.branch = branch && f.depth = depth

/-- Mutation checkFileCollection: mark every uncollected file at the exact
position as collected; the returned list holds the newly collected files
(already marked, as the source pushes the mutated objects). -/
def checkFileCollection (files : List FileTarget) (branch : String) (depth : Nat) :
    List FileTarget × List FileTarget :=
  (files.map fun f => if collectsAt branch depth f then { f with collected := true } else f,
   (files.filter (collectsAt branch depth)).map fun f => { f with collected := true })

/-- Command commit: append a child of the current commit and advance the
current branch (or HEAD itself when detached), then run file collection and
the win check.  The fresh hash and the clock are explicit parameters. -/
def commitCmd (e : GitEngine) (message : String) (newId : String) (now : Nat) :
    GitEngine × CommandResult :=
  let currentCommit := e.getCurrentCommit
  let currentBranch := e.getCurrentBranch
  match currentCommit with
  | none => (e, { success := false, message := "No current commit found" })
  | some currentCommit =>
      if e.graph.commits.size ≥ e.constraints.maxCommits then
        (e, { success := false, message := "Maximum commits reached" })
      else
        let newDepth := currentCommit.depth + 1
        let branchName :=
          match currentBranch with
          | some b => strOr b.name currentCommit.branch
          | none => currentCommit.branch
        let newCommit : Commit :=
          { id := newId, message := message, parentIds := [currentCommit.id],
            branch := branchName, depth := newDepth, timestamp := now }
        let commits' := e.graph.commits.set newId newCommit
        let graph' :=
          match currentBranch with
          | some b =>
              { e.graph with
                commits := commits',
                branches := e.graph.branches.set b.name { b with tipCommitId := newId } }
          | none => { e.graph with commits := commits', headRef := newId }
        let fc := checkFileCollection e.files branchName newDepth
        let allFilesCollected := fc.1.all (·.collected)
        let gameWon := allFilesCollected && branchName = "main"
        ({ e with graph := graph', files := fc.1 },
         { success := true,
           message := "Created commit " ++ newId.take 7 ++ ": " ++ message,
           newState := some graph',
           filesCollected := some fc.2,
           gameWon := some gameWon })

/-- Command branch: create a new branch pointer at the current commit. -/
def branchCmd (e : GitEngine) (branchName : String) : GitEngine × CommandResult :=
  if branchName = "" then
    (e, { success := false, message := "Branch name is required" })
  else if e.graph.branches.has branchName then
    (e, { success := false, message := "Branch already exists" })
  else if e.graph.branches.size ≥ e.constraints.maxBranches then
    (e, { success := false, message := "Maximum branches reached" })
  else
    match e.getCurrentCommit with
    | none => (e, { success := false, message := "No current commit found" })
    | some currentCommit =>
        let newBranch : Branch :=
          { name := branchName, tipCommitId := currentCommit.id,
            color := getBranchColor branchName }
        ({ e with graph :=
            { e.graph with branches := e.graph.branches.set branchName newBranch } },
         { success := true,
           message := "Created branch " ++ branchName,
           newState := some { e.graph with
             branches := e.graph.branches.set branchName newBranch } })

/-- Command checkout: resolve the target as a branch name, an exact commit id,
then a commit-id short-hash match, and move HEAD there. -/
def checkoutCmd (e : GitEngine) (target : String) : GitEngine × CommandResult :=
  if target = "" then
    (e, { success := false, message := "Checkout target is required" })
  else if e.graph.branches.has target then
    let graph' := { e.graph with headRef := target, isDetached := false }
    ({ e with graph := graph' },
     { success := true, message := "Switched to branch " ++ target,
       newState := some graph' })
  else if e.graph.commits.has target then
    let graph' := { e.graph with headRef := target, isDetached := true }
    ({ e with graph := graph' },
     { success := true, message := "HEAD is now at " ++ target.take 7,
       newState := some graph' })
  else
    match e.graph.commits.keys.find? (·.startsWith target) with
    | some matchingCommit =>
        let graph' := { e.graph with headRef := matchingCommit, isDetached := true }
        ({ e with graph := graph' },
         { success := true, message := "HEAD is now at " ++ matchingCommit.take 7,
           newState := some graph' })
    | none =>
        (e, { success := false,
              message := "pathspec " ++ target ++ " did not match any branch or commit" })

/-- Command merge: fast-forward when the current tip is an ancestor of the
target tip, otherwise create a two-parent merge commit. -/
def mergeCmd (e : GitEngine) (branchName : String) (newId : String) (now : Nat) :
    GitEngine × CommandResult :=
  if branchName = "" then
    (e, { success := false, message := "Branch name is required" })
  else
    match e.getCurrentBranch with
    | none => (e, { success := false, message := "Cannot merge in detached HEAD state" })
    | some currentBranch =>
        match e.graph.branches.get? branchName with
        | none => (e, { success := false, message := "Branch not found" })
        | some targetBranch =>
            match e.getCurrentCommit, e.graph.commits.get? targetBranch.tipCommitId with
            | some currentCommit, some targetCommit =>
                if e.isAncestor currentCommit.id targetCommit.id then
                  let branches' := e.graph.branches.set currentBranch.name
                    { currentBranch with tipCommitId := targetCommit.id }
                  let graph' := { e.graph with branches := branches' }
                  let allFilesCollected := e.files.all (·.collected)
                  let gameWon := allFilesCollected && currentBranch.name = "main"
                  ({ e with graph := graph' },
                   { success := true,
                     message := "Fast-forward merge: " ++ currentBranch.name ++ " -> " ++ branchName,
                     newState := some graph',
                     gameWon := some gameWon })
                else
                  let mergeCommit : Commit :=
                    { id := newId,
                      message := "Merge branch " ++ branchName ++ " into " ++ currentBranch.name,
                      parentIds := [currentCommit.id, targetCommit.id],
                      branch := currentBranch.name,
                      depth := max currentCommit.depth targetCommit.depth + 1,
                      timestamp := now }
                  let commits' := e.graph.commits.set newId mergeCommit
                  let branches' := e.graph.branches.set currentBranch.name
                    { currentBranch with tipCommitId := newId }
                  let graph' := { e.graph with commits := commits', branches := branches' }
                  let fc := checkFileCollection e.files currentBranch.name mergeCommit.depth
                  let allFilesCollected := fc.1.all (·.collected)
                  let gameWon := allFilesCollected && currentBranch.name = "main"
                  ({ e with graph := graph', files := fc.1 },
                   { success := true,
                     message := "Merged " ++ branchName ++ " into " ++ currentBranch.name,
                     newState := some graph',
                     filesCollected := some fc.2,
                     gameWon := some gameWon })
            | _, _ => (e, { success := false, message := "Could not resolve commits for merge" })

/-- Depth of the commit a parent id resolves to, with the JavaScript
"?.depth || 0" fallback of the rebase replay loop. -/
def parentDepth (commits : SMap Commit) (parentId : String) : Nat :=
  match commits.get? parentId with
  | some p => p.depth
  | none => 0

/-- Replay loop of rebase: stack each collected commit, paired with its fresh
id, on top of the running parent, recomputing depth from the evolving map. -/
def replayLoop (branchName : String) (now : Nat) :
    List (Commit × String) → SMap Commit → String → SMap Commit × String
  | [], commits, parentId => (commits, parentId)
  | (c, newId) :: rest, commits, parentId =>
      let newCommit : Commit :=
        { id := newId, message := c.message, parentIds := [parentId],
          branch := branchName, depth := parentDepth commits parentId + 1,
          timestamp := now }
      replayLoop branchName now rest (commits.set newId newCommit) newId

/-- Command rebase: replay the current branch's first-parent chain (back to,
but not including, the target tip) on top of the target tip.  Fresh hashes
come from the id source, one per replayed commit. -/
def rebaseCmd (e : GitEngine) (targetBranchName : String) (idGen : Nat → String)
    (now : Nat) : GitEngine × CommandResult :=
  if targetBranchName = "" then
    (e, { success := false, message := "Target branch is required" })
  else
    match e.getCurrentBranch with
    | none => (e, { success := false, message := "Cannot rebase in detached HEAD state" })
    | some currentBranch =>
        match e.graph.branches.get? targetBranchName with
        | none => (e, { success := false, message := "Branch not found" })
        | some target =>
            match e.getCurrentCommit, e.graph.commits.get? target.tipCommitId with
            | some _, some _ =>
                let commitsToReplay :=
                  e.getCommitsBetween currentBranch.tipCommitId target.tipCommitId
                if commitsToReplay.isEmpty then
                  let allFilesCollected := e.files.all (·.collected)
                  let gameWon := allFilesCollected && currentBranch.name = "main"
                  (e, { success := true, message := "Already up to date",
                        newState := some e.graph, gameWon := some gameWon })
                else
                  let paired := commitsToReplay.enum.map fun p => (p.2, idGen p.1)
                  let rl := replayLoop currentBranch.name now paired
                    e.graph.commits target.tipCommitId
                  let branches' := e.graph.branches.set currentBranch.name
                    { currentBranch with tipCommitId := rl.2 }
                  let graph' := { e.graph with commits := rl.1, branches := branches' }
                  let newDepth := parentDepth rl.1 rl.2
                  let fc := checkFileCollection e.files currentBranch.name newDepth
                  let allFilesCollected := fc.1.all (·.collected)
                  let gameWon := allFilesCollected && currentBranch.name = "main"
                  ({ e with graph := graph', files := fc.1 },
                   { success := true,
                     message := "Rebased " ++ currentBranch.name ++ " onto " ++ targetBranchName,
                     newState := some graph',
                     filesCollected := some fc.2,
                     gameWon := some gameWon })
            | _, _ => (e, { success := false, message := "Could not resolve commits for rebase" })

/-- Dispatcher executeCommand of the GitEngine class: reject command types
outside allowedCommands, route the rest, and refuse undo outright. -/
def executeCommand (e : GitEngine) (cmd : GameCommand) (idGen : Nat → String)
    (now : Nat) : GitEngine × CommandResult :=
  if ¬ e.constraints.allowedCommands.contains cmd.type then
    (e, { success := false, message := "Command is not allowed in this puzzle" })
  else
    match cmd.type with
    | .commit => e.commitCmd (strOr (cmd.args.getD 0 "") "Commit") (idGen 0) now
    | .branch => e.branchCmd (cmd.args.getD 0 "")
    | .checkout => e.checkoutCmd (cmd.args.getD 0 "")
    | .merge => e.mergeCmd (cmd.args.getD 0 "") (idGen 0) now
    | .rebase => e.rebaseCmd (cmd.args.getD 0 "") idGen now
    | .undo => (e, { success := false, message := "Undo is handled by the game state manager" })

end GitEngine

/-- Per-session status, from the GameState interface. -/
inductive GameStatus
  | playing
  | won
  | abandoned
deriving Repr, DecidableEq

/-- Undo-stack entry, from the UndoState interface: a deep snapshot of the
graph and the file targets. -/
structure UndoState where
  graph : GitGraph
  files : List FileTarget
deriving Repr, DecidableEq

/-- Session state held by the useGame hook (fields the executor and undo
touch; identifiers, par score and clock fields are carried by the host). -/
structure GameState where
  graph : GitGraph
  files : List FileTarget
  commandHistory : List GameCommand
  undoStack : List UndoState
  status : GameStatus
  commandsUsed : Nat
  checkoutsUsed : Nat
deriving Repr, DecidableEq

namespace Game

/-- Undo entry point of the useGame hook: pop the most recent snapshot,
restore graph and files from it verbatim, drop the last history entry,
decrement commandsUsed (floored at zero), and decrement checkoutsUsed only
when the undone command was a checkout.  Returns false untouched on an empty
stack. -/
def undo (gs : GameState) : GameState × Bool :=
  match gs.undoStack.getLast? with
  | none => (gs, false)
  | some previousState =>
      let lastCommand := gs.commandHistory.getLast?
      ({ gs with
          graph := previousState.graph,
          files := previousState.files,
          commandHistory := gs.commandHistory.dropLast,
          undoStack := gs.undoStack.dropLast,
          commandsUsed := gs.commandsUsed - 1,
          checkoutsUsed :=
            if lastCommand.map (·.type) = some CommandType.checkout then
              gs.checkoutsUsed - 1
            else gs.checkoutsUsed },
       true)

/-- Command entry point of the useGame hook, at the parsed-command level:
refuse after game end, route undo before any quota, enforce maxCommands and
maxCheckouts, snapshot for undo, run the engine, and commit the new state
only on success. -/
def executeCommand (constraints : PuzzleConstraints) (gs : GameState)
    (cmd : GameCommand) (idGen : Nat → String) (now : Nat) :
    GameState × CommandResult :=
  if gs.status ≠ GameStatus.playing then
    (gs, { success := false, message := "Game has ended" })
  else if cmd.type = CommandType.undo then
    let u := undo gs
    (u.1, { success := u.2,
            message := if u.2 then "Undid last command" else "Nothing to undo" })
  else if gs.commandsUsed ≥ constraints.maxCommands then
    (gs, { success := false, message := "Maximum commands reached" })
  else if cmd.type = CommandType.checkout ∧ gs.checkoutsUsed ≥ constraints.maxCheckouts then
    (gs, { success := false, message := "Maximum checkouts reached" })
  else
    let previousState : UndoState := { graph := gs.graph, files := gs.files }
    let engine : GitEngine :=
      { graph := gs.graph, files := gs.files, constraints := constraints }
    let er := engine.executeCommand cmd idGen now
    if ¬ er.2.success then (gs, er.2)
    else
      ({ gs with
          graph := er.1.graph,
          files := er.1.files,
          commandHistory := gs.commandHistory ++ [cmd],
          undoStack := gs.undoStack ++ [previousState],
          commandsUsed := gs.commandsUsed + 1,
          checkoutsUsed :=
            if cmd.type = CommandType.checkout then gs.checkoutsUsed + 1
            else gs.checkoutsUsed,
          status := if er.2.gameWon = some true then GameStatus.won else gs.status },
       er.2)

/-- Fold of executeCommand over a command sequence; each entry carries its own
id source and clock value. -/
def applyCommands (constraints : PuzzleConstraints) :
    GameState → List (GameCommand × (Nat → String) × Nat) → GameState
  | gs, [] => gs
  | gs, (c, g, t) :: rest =>
      applyCommands constraints (executeCommand constraints gs c g t).1 rest

/-- Proposition that every command in the sequence succeeds when applied in
order. -/
def allSucceed (constraints : PuzzleConstraints) :
    GameState → List (GameCommand × (Nat → String) × Nat) → Prop
  | _, [] => True
  | gs, (c, g, t) :: rest =>
      (executeCommand constraints gs c g t).2.success = true ∧
      allSucceed constraints (executeCommand constraints gs c g t).1 rest

/-- Iterated undo. -/
def undoN : Nat → GameState → GameState
  | 0, gs => gs
  | n + 1, gs => undoN n (undo gs).1

end Game

/-! Concrete fixtures, mirroring createTestPuzzle in src/lib/gitEngine.ts. -/

/-- Constraints of the test puzzle. -/
def exConstraints : PuzzleConstraints :=
  { maxCommands := 20, maxCommits := 15, maxCheckouts := 10, maxBranches := 5,
    allowedCommands := [.commit, .branch, .checkout, .merge, .rebase, .undo] }

/-- Root commit of the test puzzle graph. -/
def exCommit0 : Commit :=
  { id := "c0", message := "Initial commit", parentIds := [], branch := "main",
    depth := 0, timestamp := 0 }

/-- Initial graph of the test puzzle: one root commit on main, HEAD attached. -/
def exGraph0 : GitGraph :=
  { commits := [("c0", exCommit0)],
    branches := [("main", { name := "main", tipCommitId := "c0", color := BRANCH_COLORS_main })],
    headRef := "main", isDetached := false }

/-- Engine over the test puzzle graph with two file targets. -/
def exEngine0 : GitEngine :=
  { graph := exGraph0,
    files := [{ id := "1", name := "README.md", branch := "main", depth := 1, collected := false },
              { id := "2", name := "index.ts", branch := "feature", depth := 2, collected := false }],
    constraints := exConstraints }

/-- Session state over the test puzzle graph. -/
def exGameState0 : GameState :=
  { graph := exGraph0, files := exEngine0.files, commandHistory := [], undoStack := [],
    status := GameStatus.playing, commandsUsed := 0, checkoutsUsed := 0 }

/-! Helper lemmas: every failing engine command leaves the engine untouched. -/

theorem commitCmd_fail_eq (e : GitEngine) (msg newId : String) (now : Nat)
    (h : (e.commitCmd msg newId now).2.success = false) :
    (e.commitCmd msg newId now).1 = e := by
  unfold GitEngine.commitCmd at h ⊢
  cases hc : e.getCurrentCommit with
  | none => simp [hc]
  | some c =>
      simp only [hc] at h ⊢
      by_cases hq : e.graph.commits.size ≥ e.constraints.maxCommits
      · simp [hq]
      · simp [hq] at h

theorem branchCmd_fail_eq (e : GitEngine) (name : String)
    (h : (e.branchCmd name).2.success = false) :
    (e.branchCmd name).1 = e := by
  unfold GitEngine.branchCmd at h ⊢
  by_cases h1 : name = ""
  · simp [h1]
  · by_cases h2 : e.graph.branches.has name
    · simp [h1, h2]
    · by_cases h3 : e.graph.branches.size ≥ e.constraints.maxBranches
      · simp [h1, h2, h3]
      · cases hc : e.getCurrentCommit with
        | none => simp [h1, h2, h3, hc]
        | some c => simp [h1, h2, h3, hc] at h

theorem checkoutCmd_fail_eq (e : GitEngine) (target : String)
    (h : (e.checkoutCmd target).2.success = false) :
    (e.checkoutCmd target).1 = e := by
  unfold GitEngine.checkoutCmd at h ⊢
  by_cases h1 : target = ""
  · simp [h1]
  · by_cases h2 : e.graph.branches.has target
    · simp [h1, h2] at h
    · by_cases h3 : e.graph.commits.has target
      · simp [h1, h2, h3] at h
      · cases hm : e.graph.commits.keys.find? (·.startsWith target) with
        | none => simp [h1, h2, h3, hm]
        | some m => simp [h1, h2, h3, hm] at h

theorem mergeCmd_fail_eq (e : GitEngine) (branchName newId : String) (now : Nat)
    (h : (e.mergeCmd branchName newId now).2.success = false) :
    (e.mergeCmd branchName newId now).1 = e := by
  unfold GitEngine.mergeCmd at h ⊢
  by_cases h1 : branchName = ""
  · simp [h1]
  · cases hb : e.getCurrentBranch with
    | none => simp [h1, hb]
    | some cb =>
        cases ht : e.graph.branches.get? branchName with
        | none => simp [h1, hb, ht]
        | some tb =>
            cases hc : e.getCurrentCommit with
            | none => simp [h1, hb, ht, hc]
            | some cc =>
                cases htc : e.graph.commits.get? tb.tipCommitId with
                | none => simp [h1, hb, ht, hc, htc]
                | some tc =>
                    by_cases ha : e.isAncestor cc.id tc.id
                    · simp [h1, hb, ht, hc, htc, ha] at h
                    · simp [h1, hb, ht, hc, htc, ha] at h

theorem rebaseCmd_fail_eq (e : GitEngine) (targetName : String) (idGen : Nat → String)
    (now : Nat) (h : (e.rebaseCmd targetName idGen now).2.success = false) :
    (e.rebaseCmd targetName idGen now).1 = e := by
  unfold GitEngine.rebaseCmd at h ⊢
  by_cases h1 : targetName = ""
  · simp [h1]
  · cases hb : e.getCurrentBranch with
    | none => simp [h1, hb]
    | some cb =>
        cases ht : e.graph.branches.get? targetName with
        | none => simp [h1, hb, ht]
        | some tb =>
            cases hc : e.getCurrentCommit with
            | none => simp [h1, hb, ht, hc]
            | some cc =>
                cases htc : e.graph.commits.get? tb.tipCommitId with
                | none => simp [h1, hb, ht, hc, htc]
                | some tc =>
                    by_cases hr :
                      (e.getCommitsBetween cb.tipCommitId tb.tipCommitId).isEmpty
                    · simp [h1, hb, ht, hc, htc, hr] at h
                    · simp [h1, hb, ht, hc, htc, hr] at h

theorem engine_executeCommand_fail_eq (e : GitEngine) (cmd : GameCommand)
    (idGen : Nat → String) (now : Nat)
    (h : (e.executeCommand cmd idGen now).2.success = false) :
    (e.executeCommand cmd idGen now).1 = e := by
  obtain ⟨ty, args, ts⟩ := cmd
  unfold GitEngine.executeCommand at h ⊢
  by_cases ha : e.constraints.allowedCommands.contains ty
  · simp only [ha, not_true, if_false, ite_false, if_neg, not_not] at h ⊢
    cases ty with
    | commit => exact commitCmd_fail_eq _ _ _ _ (by simpa using h)
    | branch => exact branchCmd_fail_eq _ _ (by simpa using h)
    | checkout => exact checkoutCmd_fail_eq _ _ (by simpa using h)
    | merge => exact mergeCmd_fail_eq _ _ _ _ (by simpa using h)
    | rebase => exact rebaseCmd_fail_eq _ _ _ _ (by simpa using h)
    | undo => simp
  · have ha' : ty ∉ e.constraints.allowedCommands := by simpa using ha
    simp [ha']

/-- C10: for every engine state, GitEngine.executeCommand on a command of
type undo returns success false and mutates nothing, and — even when undo is
listed in allowedCommands — answers with the message deferring undo to the
game state manager. -/
theorem engine_rejects_undo (e : GitEngine) (cmd : GameCommand)
    (idGen : Nat → String) (now : Nat) (h : cmd.type = CommandType.undo) :
    (e.executeCommand cmd idGen now).1 = e ∧
    (e.executeCommand cmd idGen now).2.success = false ∧
    (e.constraints.allowedCommands.contains CommandType.undo = true →
      (e.executeCommand cmd idGen now).2.message =
        "Undo is handled by the game state manager") := by
  obtain ⟨ty, args, ts⟩ := cmd
  simp only at h
  subst h
  unfold GitEngine.executeCommand
  by_cases hc : CommandType.undo ∈ e.constraints.allowedCommands
  · simp [hc]
  · simp [hc]

/-- Witness for C10 at a concrete engine whose constraints allow undo. -/
theorem engine_rejects_undo_witness :
    (exEngine0.executeCommand { type := CommandType.undo, args := [], timestamp := 0 }
        (fun _ => "h1") 0).1 = exEngine0 ∧
    (exEngine0.executeCommand { type := CommandType.undo, args := [], timestamp := 0 }
        (fun _ => "h1") 0).2.message = "Undo is handled by the game state manager" := by
  have h := engine_rejects_undo exEngine0
    { type := CommandType.undo, args := [], timestamp := 0 } (fun _ => "h1") 0 rfl
  exact ⟨h.1, h.2.2 (by decide)⟩

/-- C2: whenever a call to the session executor fails — disallowed command
type, exhausted quota, unresolvable checkout target, unknown branch for
merge/rebase/branch, or merge/rebase with detached HEAD — it returns a
result value with success false and the whole game state (graph, files,
history, undo stack, commandsUsed, checkoutsUsed, status) is exactly as
before the call. -/
theorem executeCommand_fail_no_mutation (constraints : PuzzleConstraints)
    (gs : GameState) (cmd : GameCommand) (idGen : Nat → String) (now : Nat)
    (h : (Game.executeCommand constraints gs cmd idGen now).2.success = false) :
    (Game.executeCommand constraints gs cmd idGen now).1 = gs := by
  unfold Game.executeCommand at h ⊢
  by_cases h1 : gs.status ≠ GameStatus.playing
  · simp [h1]
  · by_cases h2 : cmd.type = CommandType.undo
    · simp only [h1, h2, ite_true, ite_false, if_neg, if_pos] at h ⊢
      unfold Game.undo at h ⊢
      cases hl : gs.undoStack.getLast? with
      | none => simp [hl]
      | some p => simp [hl] at h
    · by_cases h3 : gs.commandsUsed ≥ constraints.maxCommands
      · simp [h1, h2, h3]
      · by_cases h4 : cmd.type = CommandType.checkout ∧
            gs.checkoutsUsed ≥ constraints.maxCheckouts
        · simp [h1, h2, h3, h4]
        · simp only [h1, h2, h3, h4, ite_true, ite_false, if_neg, if_pos,
            not_false_eq_true] at h ⊢
          set engine : GitEngine :=
            { graph := gs.graph, files := gs.files, constraints := constraints }
          by_cases h5 : (engine.executeCommand cmd idGen now).2.success
          · simp [h5] at h
          · simp [h5]

/-- Witness for C2: a checkout of a nonexistent ref fails and leaves the
concrete session state untouched. -/
theorem executeCommand_fail_no_mutation_witness :
    (Game.executeCommand exConstraints exGameState0
        { type := CommandType.checkout, args := ["nonexistent-branch"], timestamp := 0 }
        (fun _ => "h1") 0).1 = exGameState0 :=
  executeCommand_fail_no_mutation exConstraints exGameState0
    { type := CommandType.checkout, args := ["nonexistent-branch"], timestamp := 0 }
    (fun _ => "h1") 0 (by decide)

/-- C4: a successful commit increases the commit count by exactly one, and
the inserted commit has the previous current commit as its single parent and
depth one more than that parent. -/
theorem commit_monotonic (e : GitEngine) (msg newId : String) (now : Nat)
    (cur : Commit) (hcur : e.getCurrentCommit = some cur)
    (hq : e.graph.commits.size < e.constraints.maxCommits)
    (hfresh : e.graph.commits.has newId = false) :
    (e.commitCmd msg newId now).2.success = true ∧
    (e.commitCmd msg newId now).1.graph.commits.size = e.graph.commits.size + 1 ∧
    ∃ nc : Commit, (e.commitCmd msg newId now).1.graph.commits.get? newId = some nc ∧
      nc.parentIds = [cur.id] ∧ nc.depth = cur.depth + 1 := by
  unfold GitEngine.commitCmd
  rw [hcur]
  simp only [Nat.not_le.mpr hq, ge_iff_le, ite_false, if_neg, not_false_eq_true,
    Nat.not_le_of_lt hq]
  cases hb : e.getCurrentBranch with
  | none =>
      refine ⟨by simp, ?_, ?_⟩
      · simp [SMap.size_set_of_not_has _ _ _ hfresh]
      · exact ⟨{ id := newId, message := msg, parentIds := [cur.id], branch := cur.branch,
                 depth := cur.depth + 1, timestamp := now },
               by simp [SMap.get?_set_self], rfl, rfl⟩
  | some b =>
      refine ⟨by simp, ?_, ?_⟩
      · simp [SMap.size_set_of_not_has _ _ _ hfresh]
      · exact ⟨{ id := newId, message := msg, parentIds := [cur.id],
                 branch := strOr b.name cur.branch,
                 depth := cur.depth + 1, timestamp := now },
               by simp [SMap.get?_set_self], rfl, rfl⟩

/-- Witness for C4 on the concrete test-puzzle engine. -/
theorem commit_monotonic_witness :
    (exEngine0.commitCmd "m" "c1" 5).2.success = true ∧
    (exEngine0.commitCmd "m" "c1" 5).1.graph.commits.size =
      exEngine0.graph.commits.size + 1 ∧
    ∃ nc : Commit, (exEngine0.commitCmd "m" "c1" 5).1.graph.commits.get? "c1" = some nc ∧
      nc.parentIds = [exCommit0.id] ∧ nc.depth = exCommit0.depth + 1 :=
  commit_monotonic exEngine0 "m" "c1" 5 exCommit0 (by decide) (by decide) (by decide)

/-- Root commit carrying the branch label feature, for detached-HEAD cases. -/
def exCommitF : Commit :=
  { id := "c0", message := "Initial commit", parentIds := [], branch := "feature",
    depth := 0, timestamp := 0 }

/-- Engine whose HEAD is detached at a commit labelled feature. -/
def exEngineDet : GitEngine :=
  { graph :=
      { commits := [("c0", exCommitF)],
        branches := [("main", { name := "main", tipCommitId := "c0", color := BRANCH_COLORS_main })],
        headRef := "c0", isDetached := true },
    files := [],
    constraints := exConstraints }

/-- Counterexample for C8: committing with HEAD detached at a commit labelled
feature produces a new commit labelled feature — the checked-out commit's own
branch label — not a special detached marker. -/
theorem commit_detached_label_counterexample :
    (exEngineDet.commitCmd "m" "c9" 1).2.success = true ∧
    ((exEngineDet.commitCmd "m" "c9" 1).1.graph.commits.get? "c9").map (·.branch) =
      some "feature" ∧
    (some "feature" : Option String) ≠ some "detached" := by
  refine ⟨by decide, by decide, by decide⟩

/-- C8 amended: a commit executed while HEAD is detached labels the new
commit with the current (checked-out) commit's branch label, advances HEAD
itself to the new commit, and moves no branch tip. -/
theorem commit_detached (e : GitEngine) (msg newId : String) (now : Nat)
    (cur : Commit) (hdet : e.graph.isDetached = true)
    (hcur : e.getCurrentCommit = some cur)
    (hq : e.graph.commits.size < e.constraints.maxCommits) :
    (e.commitCmd msg newId now).2.success = true ∧
    (e.commitCmd msg newId now).1.graph.commits.get? newId =
      some { id := newId, message := msg, parentIds := [cur.id], branch := cur.branch,
             depth := cur.depth + 1, timestamp := now } ∧
    (e.commitCmd msg newId now).1.graph.headRef = newId ∧
    (e.commitCmd msg newId now).1.graph.isDetached = true ∧
    (e.commitCmd msg newId now).1.graph.branches = e.graph.branches := by
  have hb : e.getCurrentBranch = none := by
    unfold GitEngine.getCurrentBranch
    simp [hdet]
  unfold GitEngine.commitCmd
  rw [hcur, hb]
  simp only [Nat.not_le_of_lt hq, ge_iff_le, ite_false, if_neg, not_false_eq_true]
  exact ⟨by simp, by simp [SMap.get?_set_self], by simp, by simp [hdet], by simp⟩

/-- Witness for the amended C8 on the concrete detached engine. -/
theorem commit_detached_witness :
    (exEngineDet.commitCmd "m" "c8" 1).2.success = true ∧
    (exEngineDet.commitCmd "m" "c8" 1).1.graph.commits.get? "c8" =
      some { id := "c8", message := "m", parentIds := [exCommitF.id],
             branch := exCommitF.branch, depth := exCommitF.depth + 1, timestamp := 1 } ∧
    (exEngineDet.commitCmd "m" "c8" 1).1.graph.headRef = "c8" ∧
    (exEngineDet.commitCmd "m" "c8" 1).1.graph.isDetached = true ∧
    (exEngineDet.commitCmd "m" "c8" 1).1.graph.branches = exEngineDet.graph.branches :=
  commit_detached exEngineDet "m" "c8" 1 exCommitF (by decide) (by decide) (by decide)

/-- Branch names a player could regard as pre-declared for the test puzzle:
the branches existing in the initial graph plus the branches named by its
file targets. -/
def exDeclaredNames : List String :=
  exEngine0.graph.branches.keys ++ exEngine0.files.map (·.branch)

/-- Counterexample for C9: the engine happily creates a branch whose name
appears nowhere in the puzzle (neither an initial branch nor a file-target
branch), so branch names are not restricted to pre-declared ones. -/
theorem branch_predeclared_counterexample :
    (exEngine0.branchCmd "not-declared-anywhere").2.success = true ∧
    exDeclaredNames.contains "not-declared-anywhere" = false := by
  refine ⟨by decide, by decide⟩

/-- C9 amended: branch(name) succeeds for any nonempty, not-yet-existing name
while the branch quota has room and the current commit resolves — no
pre-declared list is consulted; on success it appends a branch pointer at the
current commit and leaves HEAD, the commits and the files unchanged. -/
theorem branch_creates_any_name (e : GitEngine) (name : String) (cur : Commit)
    (hname : name ≠ "")
    (hnew : e.graph.branches.has name = false)
    (hq : e.graph.branches.size < e.constraints.maxBranches)
    (hcur : e.getCurrentCommit = some cur) :
    (e.branchCmd name).2.success = true ∧
    (e.branchCmd name).1.graph.branches =
      e.graph.branches ++ [(name, { name := name, tipCommitId := cur.id,
                                    color := getBranchColor name })] ∧
    (e.branchCmd name).1.graph.headRef = e.graph.headRef ∧
    (e.branchCmd name).1.graph.isDetached = e.graph.isDetached ∧
    (e.branchCmd name).1.graph.commits = e.graph.commits ∧
    (e.branchCmd name).1.files = e.files := by
  unfold GitEngine.branchCmd
  rw [hcur]
  simp only [hname, hnew, Nat.not_le_of_lt hq, ge_iff_le, ite_false, if_neg,
    not_false_eq_true, Bool.false_eq_true]
  exact ⟨by simp, by simp [SMap.set_of_not_has _ _ _ hnew], by simp, by simp, by simp, by simp⟩

/-- Witness for the amended C9 on the concrete test-puzzle engine. -/
theorem branch_creates_any_name_witness :
    (exEngine0.branchCmd "feature").2.success = true ∧
    (exEngine0.branchCmd "feature").1.graph.branches =
      exEngine0.graph.branches ++ [("feature", { name := "feature", tipCommitId := exCommit0.id,
                                                 color := getBranchColor "feature" })] ∧
    (exEngine0.branchCmd "feature").1.graph.headRef = exEngine0.graph.headRef ∧
    (exEngine0.branchCmd "feature").1.graph.isDetached = exEngine0.graph.isDetached ∧
    (exEngine0.branchCmd "feature").1.graph.commits = exEngine0.graph.commits ∧
    (exEngine0.branchCmd "feature").1.files = exEngine0.files :=
  branch_creates_any_name exEngine0 "feature" exCommit0 (by decide) (by decide)
    (by decide) (by decide)

/-- Engine whose single remaining file target sits on the trunk branch. -/
def exEngineC5 : GitEngine :=
  { graph := exGraph0,
    files := [{ id := "1", name := "README.md", branch := "main", depth := 1, collected := false }],
    constraints := exConstraints }

/-- Counterexample for C5: a plain commit on main that collects the final
file target immediately reports the game as won — no subsequent merge or
rebase onto the trunk branch is needed. -/
theorem win_without_merge_counterexample :
    (exEngineC5.commitCmd "m" "c1" 1).2.success = true ∧
    (exEngineC5.commitCmd "m" "c1" 1).2.filesCollected =
      some [{ id := "1", name := "README.md", branch := "main", depth := 1,
              collected := true }] ∧
    (exEngineC5.commitCmd "m" "c1" 1).2.gameWon = some true := by
  refine ⟨by decide, by decide, by decide⟩

/-- C5 amended: the win flag reported by a successful commit or merge is true
iff every file target is collected after the command's own collection step
and the command's effective branch name is main (for commit: the current
branch's name, or the checked-out commit's branch label when detached; for
merge: the current branch's name).  Collecting the final file on main wins at
once; collecting it elsewhere does not. -/
theorem win_predicate_amended (e : GitEngine) (msg newId bname mid : String) (now : Nat) :
    (∀ cur : Commit, e.getCurrentCommit = some cur →
      (e.commitCmd msg newId now).2.success = true →
      ((e.commitCmd msg newId now).2.gameWon = some true ↔
        (e.commitCmd msg newId now).1.files.all (·.collected) = true ∧
        (match e.getCurrentBranch with
         | some b => strOr b.name cur.branch
         | none => cur.branch) = "main")) ∧
    ((e.mergeCmd bname mid now).2.success = true →
      ((e.mergeCmd bname mid now).2.gameWon = some true ↔
        (e.mergeCmd bname mid now).1.files.all (·.collected) = true ∧
        ∃ b : Branch, e.getCurrentBranch = some b ∧ b.name = "main")) := by
  constructor
  · intro cur hcur hsucc
    unfold GitEngine.commitCmd at hsucc ⊢
    rw [hcur] at hsucc ⊢
    by_cases hq : e.graph.commits.size ≥ e.constraints.maxCommits
    · simp [hq] at hsucc
    · cases hb : e.getCurrentBranch with
      | none => simp [hq, hb, Bool.and_eq_true, decide_eq_true_iff]
      | some b => simp [hq, hb, Bool.and_eq_true, decide_eq_true_iff]
  · intro hsucc
    unfold GitEngine.mergeCmd at hsucc ⊢
    by_cases h1 : bname = ""
    · simp [h1] at hsucc
    · cases hb : e.getCurrentBranch with
      | none => simp [h1, hb] at hsucc
      | some cb =>
          cases ht : e.graph.branches.get? bname with
          | none => simp [h1, hb, ht] at hsucc
          | some tb =>
              cases hc : e.getCurrentCommit with
              | none => simp [h1, hb, ht, hc] at hsucc
              | some cc =>
                  cases htc : e.graph.commits.get? tb.tipCommitId with
                  | none => simp [h1, hb, ht, hc, htc] at hsucc
                  | some tc =>
                      by_cases ha : e.isAncestor cc.id tc.id
                      · simp [h1, hb, ht, hc, htc, ha, Bool.and_eq_true,
                          decide_eq_true_iff]
                      · simp [h1, hb, ht, hc, htc, ha, Bool.and_eq_true,
                          decide_eq_true_iff]

/-- Witness for the amended C5: the characterization instantiated on the
concrete engine yields the immediate win. -/
theorem win_predicate_amended_witness :
    (exEngineC5.commitCmd "m" "c1" 1).2.gameWon = some true :=
  ((win_predicate_amended exEngineC5 "m" "c1" "x" "y" 1).1 exCommit0
      (by decide) (by decide)).mpr ⟨by decide, by decide⟩

/-- Feature commit on top of the root, for two-branch fixtures. -/
def exCommitM1 : Commit :=
  { id := "c1", message := "f", parentIds := ["c0"], branch := "feature",
    depth := 1, timestamp := 1 }

/-- Two-branch graph: main at the root, feature one commit ahead. -/
def exGraphTwo (headRef : String) : GitGraph :=
  { commits := [("c0", exCommit0), ("c1", exCommitM1)],
    branches :=
      [("main", { name := "main", tipCommitId := "c0", color := BRANCH_COLORS_main }),
       ("feature", { name := "feature", tipCommitId := "c1", color := BRANCH_COLORS_feature })],
    headRef := headRef, isDetached := false }

/-- Engine on main with feature strictly ahead (fast-forward situation). -/
def exEngineMerge : GitEngine :=
  { graph := exGraphTwo "main", files := [], constraints := exConstraints }

/-- C1: with HEAD attached to branch C, the named branch B present and both
tips resolvable, merge(B) fast-forwards (zero new commits, C's tip moved to
B's tip) exactly when the current tip is an ancestor of B's tip under the
breadth-first all-parent search; otherwise it creates exactly one commit with
parent list [currentTip, targetTip] and depth max of the parent depths plus
one, and moves C's tip to that commit. -/
theorem merge_correct (e : GitEngine) (branchName newId : String) (now : Nat)
    (C B : Branch) (cur tgt : Commit)
    (hname : branchName ≠ "")
    (hCb : e.getCurrentBranch = some C)
    (hB : e.graph.branches.get? branchName = some B)
    (hcur : e.getCurrentCommit = some cur)
    (htgt : e.graph.commits.get? B.tipCommitId = some tgt)
    (hfresh : e.graph.commits.has newId = false) :
    (e.isAncestor cur.id tgt.id = true →
      (e.mergeCmd branchName newId now).2.success = true ∧
      (e.mergeCmd branchName newId now).1.graph.commits = e.graph.commits ∧
      (e.mergeCmd branchName newId now).1.graph.branches =
        e.graph.branches.set C.name { C with tipCommitId := tgt.id }) ∧
    (e.isAncestor cur.id tgt.id = false →
      (e.mergeCmd branchName newId now).2.success = true ∧
      (e.mergeCmd branchName newId now).1.graph.commits.size =
        e.graph.commits.size + 1 ∧
      (e.mergeCmd branchName newId now).1.graph.commits.get? newId =
        some { id := newId,
               message := "Merge branch " ++ branchName ++ " into " ++ C.name,
               parentIds := [cur.id, tgt.id], branch := C.name,
               depth := max cur.depth tgt.depth + 1, timestamp := now } ∧
      (∀ k, k ≠ newId →
        (e.mergeCmd branchName newId now).1.graph.commits.get? k =
          e.graph.commits.get? k) ∧
      (e.mergeCmd branchName newId now).1.graph.branches =
        e.graph.branches.set C.name { C with tipCommitId := newId }) := by
  unfold GitEngine.mergeCmd
  rw [hCb, hB, hcur]
  dsimp only
  rw [htgt]
  simp only [if_neg hname]
  constructor
  · intro ha
    rw [if_pos ha]
    exact ⟨rfl, rfl, rfl⟩
  · intro ha
    rw [if_neg (by simp [ha])]
    refine ⟨rfl, ?_, ?_, ?_, rfl⟩
    · simp [SMap.size_set_of_not_has _ _ _ hfresh]
    · simp [SMap.get?_set_self]
    · intro k hk
      simp [SMap.get?_set_ne _ _ _ _ hk]

/-- Witness for C1: a concrete fast-forward merge of feature into main. -/
theorem merge_correct_witness :
    exEngineMerge.isAncestor exCommit0.id exCommitM1.id = true ∧
    (exEngineMerge.mergeCmd "feature" "c9" 2).2.success = true ∧
    (exEngineMerge.mergeCmd "feature" "c9" 2).1.graph.commits =
      exEngineMerge.graph.commits ∧
    (exEngineMerge.mergeCmd "feature" "c9" 2).1.graph.branches =
      exEngineMerge.graph.branches.set "main"
        { name := "main", tipCommitId := exCommitM1.id, color := BRANCH_COLORS_main } := by
  have h := (merge_correct exEngineMerge "feature" "c9" 2
      { name := "main", tipCommitId := "c0", color := BRANCH_COLORS_main }
      { name := "feature", tipCommitId := "c1", color := BRANCH_COLORS_feature }
      exCommit0 exCommitM1 (by decide) (by decide) (by decide) (by decide)
      (by decide) (by decide)).1 (by decide)
  exact ⟨by decide, h.1, h.2.1, h.2.2⟩

/-- C7: undo pops the latest snapshot: it returns false and changes nothing
on an empty stack; otherwise it succeeds, decrements commandsUsed by one, and
decrements checkoutsUsed exactly when the undone command was a checkout; and
an undo command routed through the session executor is accepted before the
maxCommands quota check, so it consumes no quota slot and works even with
maxCommands exhausted. -/
theorem undo_spec (constraints : PuzzleConstraints) (gs : GameState)
    (cmd : GameCommand) (idGen : Nat → String) (now : Nat) :
    (gs.undoStack = [] → Game.undo gs = (gs, false)) ∧
    (gs.undoStack ≠ [] →
      (Game.undo gs).2 = true ∧
      (Game.undo gs).1.commandsUsed = gs.commandsUsed - 1 ∧
      ((gs.commandHistory.getLast?).map (·.type) = some CommandType.checkout →
        (Game.undo gs).1.checkoutsUsed = gs.checkoutsUsed - 1) ∧
      ((gs.commandHistory.getLast?).map (·.type) ≠ some CommandType.checkout →
        (Game.undo gs).1.checkoutsUsed = gs.checkoutsUsed)) ∧
    (gs.status = GameStatus.playing → cmd.type = CommandType.undo →
      gs.undoStack ≠ [] →
      (Game.executeCommand constraints gs cmd idGen now).2.success = true ∧
      (Game.executeCommand constraints gs cmd idGen now).1 = (Game.undo gs).1) := by
  have hpop : gs.undoStack ≠ [] →
      (Game.undo gs).2 = true ∧
      (Game.undo gs).1.commandsUsed = gs.commandsUsed - 1 ∧
      ((gs.commandHistory.getLast?).map (·.type) = some CommandType.checkout →
        (Game.undo gs).1.checkoutsUsed = gs.checkoutsUsed - 1) ∧
      ((gs.commandHistory.getLast?).map (·.type) ≠ some CommandType.checkout →
        (Game.undo gs).1.checkoutsUsed = gs.checkoutsUsed) := by
    intro h
    obtain ⟨p, hp⟩ : ∃ p, gs.undoStack.getLast? = some p := by
      cases hl : gs.undoStack.getLast? with
      | none => exact absurd (List.getLast?_eq_none_iff.mp hl) h
      | some p => exact ⟨p, rfl⟩
    unfold Game.undo
    rw [hp]
    refine ⟨rfl, rfl, ?_, ?_⟩
    · intro hc
      simp only [hc, ite_true, if_pos]
    · intro hc
      simp only [hc, ite_false, if_neg, not_false_eq_true]
  refine ⟨?_, hpop, ?_⟩
  · intro h
    unfold Game.undo
    rw [h]
    rfl
  · intro hst hty hne
    unfold Game.executeCommand
    have h1 : ¬ gs.status ≠ GameStatus.playing := by simp [hst]
    rw [if_neg h1, if_pos hty]
    exact ⟨(hpop hne).1, rfl⟩

/-- Snapshot of the initial test state, for undo fixtures. -/
def exSnap : UndoState := { graph := exGraph0, files := exEngine0.files }

/-- Constraints whose command quota is already exhausted at three commands. -/
def exConstraintsTight : PuzzleConstraints :=
  { maxCommands := 3, maxCommits := 15, maxCheckouts := 10, maxBranches := 5,
    allowedCommands := [.commit, .branch, .checkout, .merge, .rebase, .undo] }

/-- Session state that has spent its whole command quota and whose last
command was a checkout. -/
def exGameStateU : GameState :=
  { graph := exGraph0, files := exEngine0.files,
    commandHistory := [{ type := CommandType.checkout, args := ["main"], timestamp := 0 }],
    undoStack := [exSnap], status := GameStatus.playing,
    commandsUsed := 3, checkoutsUsed := 1 }

/-- Witness for C7 on a concrete exhausted-quota state whose last command was
a checkout. -/
theorem undo_spec_witness :
    (Game.undo exGameStateU).2 = true ∧
    (Game.undo exGameStateU).1.commandsUsed = 2 ∧
    (Game.undo exGameStateU).1.checkoutsUsed = 0 ∧
    (Game.executeCommand exConstraintsTight exGameStateU
        { type := CommandType.undo, args := [], timestamp := 0 }
        (fun _ => "h1") 9).2.success = true := by
  have h := undo_spec exConstraintsTight exGameStateU
    { type := CommandType.undo, args := [], timestamp := 0 } (fun _ => "h1") 9
  have h2 := h.2.1 (by decide)
  have h3 := h.2.2 (by decide) (by decide) (by decide)
  exact ⟨h2.1, h2.2.1, h2.2.2.1 (by decide), h3.1⟩

/-- Iterated undo peels its last application off the outside. -/
theorem undoN_succ_eq (n : Nat) (gs : GameState) :
    Game.undoN (n + 1) gs = (Game.undo (Game.undoN n gs)).1 := by
  induction n generalizing gs with
  | zero => rfl
  | succ n ih =>
      have hstep : Game.undoN (n + 1 + 1) gs = Game.undoN (n + 1) (Game.undo gs).1 := rfl
      rw [hstep, ih ((Game.undo gs).1)]
      rfl

/-- Successful non-undo commands append exactly one snapshot (the pre-command
graph and files) to the undo stack and one entry to the history. -/
theorem executeCommand_success_shape (constraints : PuzzleConstraints)
    (gs : GameState) (cmd : GameCommand) (idGen : Nat → String) (now : Nat)
    (hty : cmd.type ≠ CommandType.undo)
    (hs : (Game.executeCommand constraints gs cmd idGen now).2.success = true) :
    (Game.executeCommand constraints gs cmd idGen now).1.undoStack =
      gs.undoStack ++ [{ graph := gs.graph, files := gs.files }] ∧
    (Game.executeCommand constraints gs cmd idGen now).1.commandHistory =
      gs.commandHistory ++ [cmd] := by
  unfold Game.executeCommand at hs ⊢
  by_cases h1 : gs.status ≠ GameStatus.playing
  · simp [h1] at hs
  · by_cases h3 : gs.commandsUsed ≥ constraints.maxCommands
    · simp [h1, hty, h3] at hs
    · by_cases h4 : cmd.type = CommandType.checkout ∧
          gs.checkoutsUsed ≥ constraints.maxCheckouts
      · simp [h1, hty, h3, h4] at hs
      · simp only [h1, hty, h3, h4, ite_true, ite_false, if_neg, if_pos,
          not_false_eq_true] at hs ⊢
        by_cases h5 : ((⟨gs.graph, gs.files, constraints⟩ : GitEngine).executeCommand
            cmd idGen now).2.success
        · simp [h5]
        · simp [h5] at hs

/-- C3: applying any sequence of engine commands that all succeed and then
undoing the same number of times restores the graph, the file targets, the
undo stack and the history to exactly their initial values — each undo
reinstates verbatim the snapshot pushed before the corresponding command. -/
theorem undo_round_trip (constraints : PuzzleConstraints)
    (cs : List (GameCommand × (Nat → String) × Nat)) (gs : GameState)
    (hty : ∀ x ∈ cs, x.1.type ≠ CommandType.undo)
    (hs : Game.allSucceed constraints gs cs) :
    (Game.undoN cs.length (Game.applyCommands constraints gs cs)).graph = gs.graph ∧
    (Game.undoN cs.length (Game.applyCommands constraints gs cs)).files = gs.files ∧
    (Game.undoN cs.length (Game.applyCommands constraints gs cs)).undoStack =
      gs.undoStack ∧
    (Game.undoN cs.length (Game.applyCommands constraints gs cs)).commandHistory =
      gs.commandHistory := by
  induction cs generalizing gs with
  | nil => exact ⟨rfl, rfl, rfl, rfl⟩
  | cons x rest ih =>
      obtain ⟨c, g, t⟩ := x
      simp only [Game.allSucceed] at hs
      obtain ⟨h1, hrest⟩ := hs
      have hty1 : c.type ≠ CommandType.undo :=
        hty (c, g, t) (List.mem_cons_self _ _)
      have htyrest : ∀ x ∈ rest, x.1.type ≠ CommandType.undo :=
        fun x hx => hty x (List.mem_cons_of_mem _ hx)
      have hshape := executeCommand_success_shape constraints gs c g t hty1 h1
      have happly : Game.applyCommands constraints gs ((c, g, t) :: rest) =
          Game.applyCommands constraints (Game.executeCommand constraints gs c g t).1 rest := rfl
      have hlen : ((c, g, t) :: rest).length = rest.length + 1 := rfl
      rw [happly, hlen, undoN_succ_eq]
      obtain ⟨hg, hf, hu, hh⟩ := ih (Game.executeCommand constraints gs c g t).1 htyrest hrest
      unfold Game.undo
      rw [hu, hh, hshape.1, hshape.2, List.getLast?_concat, List.dropLast_concat,
        List.dropLast_concat]
      exact ⟨rfl, rfl, rfl, rfl⟩

/-- Witness for C3: one successful commit followed by one undo restores the
concrete initial state. -/
theorem undo_round_trip_witness :
    (Game.undoN 1 (Game.applyCommands exConstraints exGameState0
        [({ type := CommandType.commit, args := [], timestamp := 0 },
          fun _ => "h1", 1)])).graph = exGameState0.graph ∧
    (Game.undoN 1 (Game.applyCommands exConstraints exGameState0
        [({ type := CommandType.commit, args := [], timestamp := 0 },
          fun _ => "h1", 1)])).files = exGameState0.files := by
  have h := undo_round_trip exConstraints
    [({ type := CommandType.commit, args := [], timestamp := 0 }, fun _ => "h1", 1)]
    exGameState0
    (by
      intro x hx
      simp only [List.mem_singleton] at hx
      subst hx
      decide)
    (by
      simp only [Game.allSucceed]
      exact ⟨by decide, trivial⟩)
  exact ⟨h.1, h.2.1⟩

/-- Expected shape of the commits appended by the rebase replay loop: each
replayed commit, paired with its fresh id, chained by first parent with depth
growing by one from the base depth. -/
def replayedCommits (branchName : String) (now : Nat) :
    List (Commit × String) → Nat → String → SMap Commit
  | [], _, _ => []
  | (c, newId) :: rest, pd, parentId =>
      (newId, { id := newId, message := c.message, parentIds := [parentId],
                branch := branchName, depth := pd + 1, timestamp := now }) ::
        replayedCommits branchName now rest (pd + 1) newId

theorem replayedCommits_length (branchName : String) (now : Nat)
    (pairs : List (Commit × String)) :
    ∀ pd parentId, (replayedCommits branchName now pairs pd parentId).length =
      pairs.length := by
  induction pairs with
  | nil => intro pd parentId; rfl
  | cons p rest ih =>
      intro pd parentId
      obtain ⟨c, newId⟩ := p
      simp [replayedCommits, ih]

/-- Replay loop characterization: with fresh pairwise-distinct ids, the loop
appends exactly the expected replayed chain and hands back the last fresh id
(or the starting parent when nothing is replayed). -/
theorem replayLoop_eq (bn : String) (now : Nat) (pairs : List (Commit × String))
    (commits : SMap Commit) (parentId : String)
    (hfresh : ∀ id ∈ pairs.map Prod.snd, commits.has id = false)
    (hnodup : (pairs.map Prod.snd).Nodup) :
    (GitEngine.replayLoop bn now pairs commits parentId).1 =
      commits ++ replayedCommits bn now pairs
        (GitEngine.parentDepth commits parentId) parentId ∧
    (GitEngine.replayLoop bn now pairs commits parentId).2 =
      (pairs.map Prod.snd).getLastD parentId := by
  induction pairs generalizing commits parentId with
  | nil => simp [GitEngine.replayLoop, replayedCommits]
  | cons p rest ih =>
      obtain ⟨c, newId⟩ := p
      have hfr : commits.has newId = false := hfresh newId (by simp)
      have hnotmem : newId ∉ rest.map Prod.snd := by
        have := hnodup
        simp only [List.map_cons, List.nodup_cons] at this
        exact this.1
      set nc : Commit :=
        { id := newId, message := c.message, parentIds := [parentId],
          branch := bn, depth := GitEngine.parentDepth commits parentId + 1,
          timestamp := now } with hnc
      have hset : commits.set newId nc = commits ++ [(newId, nc)] :=
        SMap.set_of_not_has commits newId nc hfr
      have hpd : GitEngine.parentDepth (commits.set newId nc) newId =
          GitEngine.parentDepth commits parentId + 1 := by
        unfold GitEngine.parentDepth
        rw [SMap.get?_set_self]
        rfl
      have hfrest : ∀ id ∈ rest.map Prod.snd, (commits.set newId nc).has id = false := by
        intro id hid
        rw [hset, SMap.has_append]
        have h1 : commits.has id = false := hfresh id (by simp [hid])
        have hne : newId ≠ id := fun heq => hnotmem (heq ▸ hid)
        have h2 : SMap.has [(newId, nc)] id = false := by
          simp [SMap.has, hne]
        rw [h1, h2]
        rfl
      have hnodup' : (rest.map Prod.snd).Nodup := by
        have := hnodup
        simp only [List.map_cons, List.nodup_cons] at this
        exact this.2
      have hstep :
          GitEngine.replayLoop bn now ((c, newId) :: rest) commits parentId =
            GitEngine.replayLoop bn now rest (commits.set newId nc) newId := rfl
      obtain ⟨ih1, ih2⟩ := ih (commits.set newId nc) newId hfrest hnodup'
      constructor
      · rw [hstep, ih1, hpd, hset, List.append_assoc, List.singleton_append]
        rfl
      · rw [hstep, ih2, List.map_cons, List.getLastD_cons]

/-- Fresh-id list produced by mapping the id source over the replay indices. -/
theorem pairs_map_snd (R : List Commit) (idGen : Nat → String) :
    ((R.enum.map fun p => (p.2, idGen p.1)).map Prod.snd) =
      (List.range R.length).map idGen := by
  rw [List.map_map]
  have h : (Prod.snd ∘ fun p : Nat × Commit => (p.2, idGen p.1)) =
      idGen ∘ Prod.fst := rfl
  rw [h, ← List.map_map]
  simp [List.enum, List.enumFrom_map_fst, List.range_eq_range']

theorem getLastD_range_map (f : Nat → String) (n : Nat) (d : String) (h : n ≠ 0) :
    (((List.range n).map f).getLastD d) = f (n - 1) := by
  obtain ⟨m, rfl⟩ := Nat.exists_eq_succ_of_ne_zero h
  rw [List.range_succ, List.map_append]
  simp

/-- C6 amended: a successful rebase that replays k ≥ 1 commits appends
exactly the replayed chain (original order, parents rewired one after the
other, depth recomputed as parent depth + 1 at each step) to the commit map,
moves the current branch tip to the last replayed (fresh) commit — so the
rebased branch no longer references any pre-rebase commit — and every
original commit stays addressable by its id with unchanged content; other
branch tips may still reference original commits. -/
theorem rebase_correct (e : GitEngine) (targetName : String) (idGen : Nat → String)
    (now : Nat) (C B : Branch) (cur tgt : Commit)
    (hname : targetName ≠ "")
    (hCb : e.getCurrentBranch = some C)
    (hB : e.graph.branches.get? targetName = some B)
    (hcur : e.getCurrentCommit = some cur)
    (htgt : e.graph.commits.get? B.tipCommitId = some tgt)
    (hk : e.getCommitsBetween C.tipCommitId B.tipCommitId ≠ [])
    (hfresh : ∀ i < (e.getCommitsBetween C.tipCommitId B.tipCommitId).length,
      e.graph.commits.has (idGen i) = false)
    (hinj : ∀ i j, i < (e.getCommitsBetween C.tipCommitId B.tipCommitId).length →
      j < (e.getCommitsBetween C.tipCommitId B.tipCommitId).length →
      idGen i = idGen j → i = j) :
    (e.rebaseCmd targetName idGen now).2.success = true ∧
    (e.rebaseCmd targetName idGen now).1.graph.commits =
      e.graph.commits ++
        replayedCommits C.name now
          ((e.getCommitsBetween C.tipCommitId B.tipCommitId).enum.map
            fun p => (p.2, idGen p.1))
          tgt.depth B.tipCommitId ∧
    (e.rebaseCmd targetName idGen now).1.graph.commits.size =
      e.graph.commits.size +
        (e.getCommitsBetween C.tipCommitId B.tipCommitId).length ∧
    (∀ k, e.graph.commits.has k = true →
      (e.rebaseCmd targetName idGen now).1.graph.commits.get? k =
        e.graph.commits.get? k) ∧
    (e.rebaseCmd targetName idGen now).1.graph.branches =
      e.graph.branches.set C.name
        { C with tipCommitId :=
            idGen ((e.getCommitsBetween C.tipCommitId B.tipCommitId).length - 1) } ∧
    e.graph.commits.has
      (idGen ((e.getCommitsBetween C.tipCommitId B.tipCommitId).length - 1)) =
      false := by
  have hlen0 : (e.getCommitsBetween C.tipCommitId B.tipCommitId).length ≠ 0 :=
    fun h0 => hk (List.length_eq_zero.mp h0)
  have hsnd := pairs_map_snd (e.getCommitsBetween C.tipCommitId B.tipCommitId) idGen
  have hfresh' : ∀ id ∈ (((e.getCommitsBetween C.tipCommitId B.tipCommitId).enum.map
      fun p => (p.2, idGen p.1)).map Prod.snd), e.graph.commits.has id = false := by
    rw [hsnd]
    intro id hid
    simp only [List.mem_map, List.mem_range] at hid
    obtain ⟨i, hi, rfl⟩ := hid
    exact hfresh i hi
  have hnodup : (((e.getCommitsBetween C.tipCommitId B.tipCommitId).enum.map
      fun p => (p.2, idGen p.1)).map Prod.snd).Nodup := by
    rw [hsnd]
    exact List.Nodup.map_on
      (fun i hi j hj hij =>
        hinj i j (List.mem_range.mp hi) (List.mem_range.mp hj) hij)
      (List.nodup_range _)
  have hloop := replayLoop_eq C.name now
    ((e.getCommitsBetween C.tipCommitId B.tipCommitId).enum.map
      fun p => (p.2, idGen p.1))
    e.graph.commits B.tipCommitId hfresh' hnodup
  have hpd : GitEngine.parentDepth e.graph.commits B.tipCommitId = tgt.depth := by
    unfold GitEngine.parentDepth
    rw [htgt]
  have hlast : ((((e.getCommitsBetween C.tipCommitId B.tipCommitId).enum.map
      fun p => (p.2, idGen p.1)).map Prod.snd).getLastD B.tipCommitId) =
      idGen ((e.getCommitsBetween C.tipCommitId B.tipCommitId).length - 1) := by
    rw [hsnd]
    exact getLastD_range_map idGen _ _ hlen0
  have hfinal : e.graph.commits.has
      (idGen ((e.getCommitsBetween C.tipCommitId B.tipCommitId).length - 1)) = false :=
    hfresh _ (Nat.sub_lt (Nat.pos_of_ne_zero hlen0) Nat.one_pos)
  unfold GitEngine.rebaseCmd
  rw [hCb]
  dsimp only
  rw [hB]
  dsimp only
  rw [hcur, htgt]
  dsimp only
  rw [if_neg hname, if_neg (by simp [List.isEmpty_iff, hk])]
  dsimp only
  refine ⟨rfl, ?_, ?_, ?_, ?_, hfinal⟩
  · rw [hloop.1, hpd]
  · rw [hloop.1, hpd]
    simp [SMap.size, replayedCommits_length]
  · intro k hkk
    rw [hloop.1]
    exact SMap.get?_append_of_has _ _ _ hkk
  · rw [hloop.2, hlast]

/-- Engine on feature with main one commit behind (rebase situation). -/
def exEngineReb : GitEngine :=
  { graph := exGraphTwo "feature", files := [], constraints := exConstraints }

/-- Counterexample for C6: after a successful rebase of feature onto main,
the original pre-rebase commit c0 is still referenced by the branch tip of
main, so original commits are not left unreferenced by every branch tip. -/
theorem rebase_unreferenced_counterexample :
    (exEngineReb.rebaseCmd "main" (fun _ => "n0") 9).2.success = true ∧
    exEngineReb.graph.commits.has "c0" = true ∧
    ((exEngineReb.rebaseCmd "main" (fun _ => "n0") 9).1.graph.branches.get? "main").map
      (·.tipCommitId) = some "c0" := by
  refine ⟨by decide, by decide, by decide⟩

/-- Witness for the amended C6 on the concrete two-branch engine. -/
theorem rebase_correct_witness :
    (exEngineReb.rebaseCmd "main" (fun _ => "n0") 9).2.success = true ∧
    (exEngineReb.rebaseCmd "main" (fun _ => "n0") 9).1.graph.commits.size =
      exEngineReb.graph.commits.size +
        (exEngineReb.getCommitsBetween "c1" "c0").length ∧
    exEngineReb.graph.commits.has "n0" = false := by
  have h := rebase_correct exEngineReb "main" (fun _ => "n0") 9
    { name := "feature", tipCommitId := "c1", color := BRANCH_COLORS_feature }
    { name := "main", tipCommitId := "c0", color := BRANCH_COLORS_main }
    exCommitM1 exCommit0 (by decide) (by decide) (by decide) (by decide) (by decide)
    (by decide)
    (by
      intro i hi
      show exEngineReb.graph.commits.has "n0" = false
      decide)
    (by
      intro i j hi hj _
      have hi' : i < 1 := hi
      have hj' : j < 1 := hj
      omega)
  exact ⟨h.1, h.2.2.1, h.2.2.2.2.2⟩

end Gitty
